import Mathlib

/-!
Verification of the images-grid module (`src/utils/images_grid.py`).

The module tiles a list of raster images into a rectangular grid and
optionally draws centered row/column labels around the grid.  We embed the
source shallowly:

* an `Image` is its size together with a total pixel function; the PIL
  primitives used by the source (`Image.new`, `Image.paste`, `Image.crop`)
  are modelled functionally (mutation of a canvas becomes returning the
  updated canvas);
* the font / text services (§6 of the design: `getlength`, `textbbox`,
  glyph rasterization by `draw.text`) are external collaborators; a `Font`
  packages their metric functions (`ℚ`-valued, as the services return
  floats) and an abstract glyph rasterizer `render`;
* the drawing surface obtained from `ImageDraw.Draw` is abstracted as a
  state `σ` with a text-drawing primitive `textPrim`, so that the same
  transcription of the drawing code can be run on the real canvas
  (`σ := Image`, `textPrim := ImageDraw.text`) and observed through an
  instrumented surface (e.g. a log of the drawn labels);
* the `while x0 != bound` loops of `_draw_column_text` / `_draw_row_text`
  are given their exact partial-iteration semantics with an explicit fuel:
  the wrappers pass `bound - x0` fuel, which is enough precisely when the
  Python loop terminates (the step is positive and strictly increases the
  counter), so `none` is returned exactly when the Python loop diverges;
* a fallible computation returns `AnnotResult`: `raised msg` for a Python
  `raise`, `hang` for divergence, `done img` for normal return.
-/

/-- Colors are abstract pixel values (the concrete RGB encoding is
irrelevant to the layout logic). -/
abbrev Color := Nat

/-- The fill value PIL uses for `color="white"`. -/
def whiteColor : Color := 16777215

/-- The fill value PIL uses for regions of a crop box that lie outside the
source image (zero / black). -/
def blackColor : Color := 0

/-- A raster image: a size and a total pixel function.  Pixels outside the
bounds are junk values that no theorem depends on. -/
structure Image where
  width : Nat
  height : Nat
  pixel : Nat → Nat → Color

instance : Inhabited Image := ⟨⟨0, 0, fun _ _ => blackColor⟩⟩

/-- PIL `img.size`. -/
def Image.size (img : Image) : Nat × Nat := (img.width, img.height)

/-- PIL `Image.new(mode, (w, h), color)`: a fresh canvas filled with a
constant color. -/
def Image.new (w h : Nat) (c : Color) : Image := ⟨w, h, fun _ _ => c⟩

/-- PIL `dst.paste(src, (x, y))` with a non-negative offset: the source
pixels overwrite the destination inside the pasted rectangle; the
destination keeps its size.  (The source code only pastes at non-negative
offsets.)  Mutation is modelled by returning the updated destination. -/
def Image.paste (dst src : Image) (off : Nat × Nat) : Image :=
  ⟨dst.width, dst.height, fun x y =>
    if off.1 ≤ x ∧ x < off.1 + src.width ∧ off.2 ≤ y ∧ y < off.2 + src.height then
      src.pixel (x - off.1) (y - off.2)
    else
      dst.pixel x y⟩

/-- PIL `img.crop((0, 0, w, h))`: a new `w × h` image, top-left anchored on
the source; the part of the box outside the source is zero-filled.  The
source image is not modified (crop allocates a new image). -/
def Image.crop (img : Image) (w h : Nat) : Image :=
  ⟨w, h, fun x y =>
    if x < img.width ∧ y < img.height then img.pixel x y else blackColor⟩

/-- The external font / text-measurement service (§6 of the design):
a font size, the advance-width metric `getlength` (a float, modelled in
`ℚ`), the bounding box `draw.textbbox((0, 0), text)` as the 4-tuple
`(left, top, right, bottom)` measured at origin, and the glyph rasterizer
behind `draw.text`: `render text pos x y` is the ink (already combined
with the fixed black fill) that drawing `text` at position `pos` deposits
on pixel `(x, y)`, or `none` if that pixel is untouched. -/
structure Font where
  size : Nat
  getlength : String → ℚ
  bbox : String → ℚ × ℚ × ℚ × ℚ
  render : String → ℚ × ℚ → Nat → Nat → Option Color

/-- Contract of the rasterizer: ink never extends past the right/bottom of
the bounding box that `textbbox` reports for the text, translated to the
draw position. -/
def Font.InkInBBox (f : Font) : Prop :=
  ∀ s pos x y c, f.render s pos x y = some c →
    (x : ℚ) < pos.1 + (f.bbox s).2.2.1 ∧ (y : ℚ) < pos.2 + (f.bbox s).2.2.2

/-- PIL `draw.text(pos, text, fill)` on a canvas: pixels the rasterizer
inks are overwritten, all others kept.  The canvas size is unchanged. -/
def ImageDraw.text (img : Image) (f : Font) (pos : ℚ × ℚ) (t : String) : Image :=
  ⟨img.width, img.height, fun x y => (f.render t pos x y).getD (img.pixel x y)⟩

/-- A band rectangle `(x0, y0, x1, y1)` as used by the drawing helpers. -/
abbrev Rect := Nat × Nat × Nat × Nat

/-- Python `max` over a list of floats (left fold of `max` over the tail,
seeded with the head).  The source only applies it to non-empty lists; the
`[]` case is an unreachable default. -/
def pyMax (l : List ℚ) : ℚ :=
  match l with
  | [] => 0
  | x :: xs => xs.foldl max x

/-- The dataclass `Annotation`: column labels, row labels and a font. -/
structure Annot where
  column_texts : List String
  row_texts : List String
  font : Font

/-- The dataclass `_GridInfo`: the already-built grid canvas, the gap, and
the size of one tile (the first image's size). -/
structure _GridInfo where
  image : Image
  gap : Nat
  one_image_size : Nat × Nat

/-- Outcome of an operation that can raise, diverge, or return an image. -/
inductive AnnotResult where
  | raised (msg : String)
  | hang
  | done (img : Image)

/-- Whether the operation returned normally. -/
def AnnotResult.isDone : AnnotResult → Bool
  | .done _ => true
  | _ => false

/-- Width of the returned image (0 if the operation did not return). -/
def AnnotResult.widthD : AnnotResult → Nat
  | .done img => img.width
  | _ => 0

/-- Height of the returned image (0 if the operation did not return). -/
def AnnotResult.heightD : AnnotResult → Nat
  | .done img => img.height
  | _ => 0

/-- The message of `ValueError("Column text or row text is empty")`. -/
def emptyTextsMsg : String := "Column text or row text is empty"

/-- Source `_draw_center_text` (lines 177-191): measure the text's bounding
box at origin, keep its last two components (`right`, `bottom`), and call
`draw.text` at `((x1 - right + x0) / 2, (y1 - bottom + y0) / 2)` (Python
float division, hence `ℚ`).  The drawing surface is abstract (`σ`,
`textPrim`); the real surface is `σ := Image`, `textPrim := ImageDraw.text
· f`. -/
def _draw_center_text {σ : Type} (f : Font) (textPrim : σ → ℚ × ℚ → String → σ)
    (s : σ) (xy : Rect) (text : String) : σ :=
  let text_size := ((f.bbox text).2.2.1, (f.bbox text).2.2.2)
  textPrim s
    (((xy.2.2.1 : ℚ) - text_size.1 + (xy.1 : ℚ)) / 2,
     ((xy.2.2.2 : ℚ) - text_size.2 + (xy.2.1 : ℚ)) / 2)
    text

/-- Source `_draw_text_by_xy` (lines 165-174): draw `texts[index]` centered
in `xy`, suppressing the `IndexError` when the index is out of range, and
return `index + 1` along with the updated surface. -/
def _draw_text_by_xy {σ : Type} (f : Font) (textPrim : σ → ℚ × ℚ → String → σ)
    (xy : Rect) (index : Nat) (s : σ) (texts : List String) : Nat × σ :=
  match texts[index]? with
  | some t => (index + 1, _draw_center_text f textPrim s xy t)
  | none => (index + 1, s)

/-- One step of the `while x0 != bound` loop of `_draw_column_text`
(lines 136-144), with explicit fuel.  `none` means the fuel ran out; with
the fuel `bound - x0` that the wrapper passes, `none` is returned exactly
when the Python loop diverges. -/
def _draw_col_go {σ : Type} (f : Font) (textPrim : σ → ℚ × ℚ → String → σ)
    (texts : List String) (step bound tp : Nat) :
    Nat → Nat → Nat → Nat → σ → Option σ
  | fuel, x0, x1, i, s =>
    if x0 = bound then some s
    else
      match fuel with
      | 0 => none
      | fuel' + 1 =>
        let p := _draw_text_by_xy f textPrim (x0, 0, x1, tp) i s texts
        _draw_col_go f textPrim texts step bound tp fuel' (x0 + step) (x1 + step) p.1 p.2

/-- Source `_draw_column_text` (lines 129-144): starting from
`x0 = left_padding`, `x1 = left_padding + tileW`, draw a label centered in
each band `(x0, 0, x1, top_padding)`, stepping both bounds by
`tileW + gap` while `x0 != grid.width + left_padding + gap`. -/
def _draw_column_text {σ : Type} (f : Font) (textPrim : σ → ℚ × ℚ → String → σ)
    (texts : List String) (grid_info : _GridInfo)
    (left_padding top_padding : Nat) (s : σ) : Option σ :=
  let step := grid_info.one_image_size.1 + grid_info.gap
  let bound := grid_info.image.width + left_padding + grid_info.gap
  _draw_col_go f textPrim texts step bound top_padding (bound - left_padding)
    left_padding (left_padding + grid_info.one_image_size.1) 0 s

/-- One step of the `while y0 != bound` loop of `_draw_row_text`
(lines 154-162), with explicit fuel (same convention as `_draw_col_go`). -/
def _draw_row_go {σ : Type} (f : Font) (textPrim : σ → ℚ × ℚ → String → σ)
    (texts : List String) (step bound lp : Nat) :
    Nat → Nat → Nat → Nat → σ → Option σ
  | fuel, y0, y1, i, s =>
    if y0 = bound then some s
    else
      match fuel with
      | 0 => none
      | fuel' + 1 =>
        let p := _draw_text_by_xy f textPrim (0, y0, lp, y1) i s texts
        _draw_row_go f textPrim texts step bound lp fuel' (y0 + step) (y1 + step) p.1 p.2

/-- Source `_draw_row_text` (lines 147-162): starting from
`y0 = top_padding`, `y1 = top_padding + tileH`, draw a label centered in
each band `(0, y0, left_padding, y1)`, stepping both bounds by
`tileH + gap` while `y0 != grid.height + top_padding + gap`. -/
def _draw_row_text {σ : Type} (f : Font) (textPrim : σ → ℚ × ℚ → String → σ)
    (texts : List String) (grid_info : _GridInfo)
    (left_padding top_padding : Nat) (s : σ) : Option σ :=
  let step := grid_info.one_image_size.2 + grid_info.gap
  let bound := grid_info.image.height + top_padding + grid_info.gap
  _draw_row_go f textPrim texts step bound left_padding (bound - top_padding)
    top_padding (top_padding + grid_info.one_image_size.2) 0 s

/-- Iteration count of a `while x0 != bound: ...; x0 += step` loop (the
loops of `_draw_column_text` / `_draw_row_text`), with the same fuel
convention as `_draw_col_go`: `some n` means the loop exits after exactly
`n` iterations, `none` (at fuel `bound - x0`) means it diverges. -/
def whileBandCount (step bound : Nat) : Nat → Nat → Option Nat
  | fuel, x0 =>
    if x0 = bound then some 0
    else
      match fuel with
      | 0 => none
      | fuel' + 1 => (whileBandCount step bound fuel' (x0 + step)).map (· + 1)

/-- Source `_paste_image_to_lower_left_corner` (lines 194-195): paste
`image` into `base` so that the bottom-right corners coincide. -/
def _paste_image_to_lower_left_corner (base image : Image) : Image :=
  base.paste image (base.width - image.width, base.height - image.height)

/-- Source line 98: `margin = font.size // 2`. -/
def annot_margin (font : Font) : Nat := font.size / 2

/-- Source line 99:
`left_padding = int(max(map(font.getlength, row_texts))) + 2*margin`.
`int` truncates the float maximum; widths are non-negative in PIL, so this
is the floor. -/
def annot_left_padding (font : Font) (row_texts : List String) : Nat :=
  (⌊pyMax (row_texts.map font.getlength)⌋).toNat + 2 * annot_margin font

/-- Source line 100: `top_padding = font.size + 2*margin`. -/
def annot_top_padding (font : Font) : Nat :=
  font.size + 2 * annot_margin font

/-- Source `_create_grid_annotations` (lines 88-126): reject empty label
sequences, compute the paddings, allocate the white expanded canvas, paste
the grid to its lower-right corner, then draw the column and row labels. -/
def _create_grid_annots (grid_info : _GridInfo)
    (column_texts row_texts : List String) (font : Font) : AnnotResult :=
  if column_texts = [] ∨ row_texts = [] then
    AnnotResult.raised emptyTextsMsg
  else
    let grid := grid_info.image
    let left_padding := annot_left_padding font row_texts
    let top_padding := annot_top_padding font
    let image := Image.new (grid.width + left_padding) (grid.height + top_padding) whiteColor
    let image2 := _paste_image_to_lower_left_corner image grid
    match _draw_column_text font (fun img pos t => ImageDraw.text img font pos t)
        column_texts grid_info left_padding top_padding image2 with
    | none => AnnotResult.hang
    | some image3 =>
      match _draw_row_text font (fun img pos t => ImageDraw.text img font pos t)
          row_texts grid_info left_padding top_padding image3 with
      | none => AnnotResult.hang
      | some image4 => AnnotResult.done image4

/-- Source `_arrange_images_on_grid` (lines 71-85): for each image (in
order), crop it to the tile size if its size differs, and paste it at
`((i % max_columns) * (tileW + gap), (i // max_columns) * (tileH + gap))`.
The destination surface is abstract (`σ`, `pasteOp`); the real surface is
`σ := Image`, `pasteOp := Image.paste`, and a log surface records the
paste calls. -/
def _arrange_images_on_grid {σ : Type} (pasteOp : σ → Image → Nat × Nat → σ)
    (grid_image : σ) (images : List Image) (size : Nat × Nat)
    (max_columns gap : Nat) : σ :=
  images.enum.foldl (fun g p =>
    let image := if p.2.size ≠ size then p.2.crop size.1 size.2 else p.2
    let x := (p.1 % max_columns) * (size.1 + gap)
    let y := (p.1 / max_columns) * (size.2 + gap)
    pasteOp g image (x, y)) grid_image

/-- The sequence of `grid_image.paste(image, (x, y))` calls that
`_arrange_images_on_grid` performs, observed through a logging surface. -/
def arrangePasteLog (images : List Image) (size : Nat × Nat)
    (max_columns gap : Nat) : List (Image × Nat × Nat) :=
  _arrange_images_on_grid (fun l img xy => l ++ [(img, xy)]) [] images size max_columns gap

/-- Source `_create_images_grid` (lines 42-68): tile size is the first
image's size, the canvas is `tileW*cols + (cols-1)*gap` by
`tileH*rows + (rows-1)*gap`, white; images are arranged on it; without an
`Annotation` the grid is returned, otherwise `_create_grid_annotations`
runs.  (Python indexes `images[0]`; on the empty list it would raise, the
model uses the default image — all claims concern non-empty input.) -/
def _create_images_grid (images : List Image) (gap max_columns max_rows : Nat)
    (ann : Option Annot) : AnnotResult :=
  let size := (images.headI).size
  let grid_width := size.1 * max_columns + (max_columns - 1) * gap
  let grid_height := size.2 * max_rows + (max_rows - 1) * gap
  let grid_image := Image.new grid_width grid_height whiteColor
  let grid_image := _arrange_images_on_grid Image.paste grid_image images size max_columns gap
  match ann with
  | none => AnnotResult.done grid_image
  | some a => _create_grid_annots ⟨grid_image, gap, size⟩ a.column_texts a.row_texts a.font

/-- Source `create_images_grid_by_columns` (lines 22-29). -/
def create_images_grid_by_columns (images : List Image) (gap max_columns : Nat)
    (ann : Option Annot) : AnnotResult :=
  let max_rows := (images.length + max_columns - 1) / max_columns
  _create_images_grid images gap max_columns max_rows ann

/-- Source `create_images_grid_by_rows` (lines 32-39). -/
def create_images_grid_by_rows (images : List Image) (gap max_rows : Nat)
    (ann : Option Annot) : AnnotResult :=
  let max_columns := (images.length + max_rows - 1) / max_rows
  _create_images_grid images gap max_columns max_rows ann

/-- Modelled from the spec (§4.3 step 3), for comparison with the source:
the claimed `leftPadding = max(textWidth(rowLabel)) + 2*margin`, without
the `int(...)` truncation the source applies. -/
def claim_left_padding (font : Font) (row_texts : List String) : ℚ :=
  pyMax (row_texts.map font.getlength) + 2 * (annot_margin font : ℚ)

/-! ### Helper lemmas -/

/-- A left fold whose step keeps the image dimensions keeps them overall. -/
theorem foldl_preserves_dims {α : Type} (F : Image → α → Image)
    (hw : ∀ g a, (F g a).width = g.width) (hh : ∀ g a, (F g a).height = g.height) :
    ∀ (l : List α) (g : Image), (l.foldl F g).width = g.width ∧ (l.foldl F g).height = g.height := by
  intro l
  induction l with
  | nil => intro g; exact ⟨rfl, rfl⟩
  | cons a l ih =>
    intro g
    simpa [List.foldl_cons, hw, hh] using ih (F g a)

/-- The arranged canvas has the dimensions of the canvas it started from. -/
theorem arrange_dims (g : Image) (images : List Image) (size : Nat × Nat)
    (c gap : Nat) :
    (_arrange_images_on_grid Image.paste g images size c gap).width = g.width ∧
    (_arrange_images_on_grid Image.paste g images size c gap).height = g.height := by
  unfold _arrange_images_on_grid
  apply foldl_preserves_dims
  · intro g a; rfl
  · intro g a; rfl

/-- Ceiling division: for `1 ≤ c`, the Python idiom `(n + c - 1) // c`
computes `⌈n / c⌉`. -/
theorem add_pred_div_eq_ceil (n c : ℕ) (hc : 1 ≤ c) :
    (((n + c - 1) / c : ℕ) : ℤ) = ⌈(n : ℚ) / (c : ℚ)⌉ := by
  have hc0 : (0 : ℚ) < c := by exact_mod_cast hc
  have hmod := Nat.div_add_mod (n + c - 1) c
  have hlt : (n + c - 1) % c < c := Nat.mod_lt _ (by omega)
  set q := (n + c - 1) / c with hq
  set e := (n + c - 1) % c with he
  have hcast : (c : ℚ) * q + e = n + c - 1 := by
    have h1 : ((c * q + e : ℕ) : ℚ) = ((n + c - 1 : ℕ) : ℚ) := by rw [hmod]
    push_cast [Nat.cast_sub (by omega : 1 ≤ n + c)] at h1
    linarith [h1]
  have heq : (e : ℚ) ≤ (c : ℚ) - 1 := by
    have : (e : ℚ) + 1 ≤ c := by exact_mod_cast Nat.succ_le_of_lt hlt
    linarith
  have he0 : (0 : ℚ) ≤ e := by positivity
  symm
  rw [Int.ceil_eq_iff]
  constructor
  · push_cast
    rw [lt_div_iff₀ hc0]
    nlinarith [hcast, heq, he0]
  · push_cast
    rw [div_le_iff₀ hc0]
    nlinarith [hcast, heq, he0]

/-! ### C1 -/

/-- C1: for a non-empty image list whose first image has size
`(tileW, tileH)`, any `gap` and `maxColumns ≥ 1`, `gridByColumns` returns
a canvas of width `tileW*maxColumns + gap*(maxColumns-1)` and height
`tileH*rows + gap*(rows-1)` with `rows = ⌈n / maxColumns⌉`; symmetrically
`gridByRows` with `maxRows ≥ 1` uses `cols = ⌈n / maxRows⌉` for the
width. -/
theorem C1_canvas_dimensions (images : List Image) (gap c r : Nat)
    (h : images ≠ []) (hc : 1 ≤ c) (hr : 1 ≤ r) :
    (∃ g, create_images_grid_by_columns images gap c none = AnnotResult.done g ∧
      g.width = images.headI.width * c + gap * (c - 1) ∧
      g.height = images.headI.height * ((images.length + c - 1) / c) +
        gap * ((images.length + c - 1) / c - 1) ∧
      (((images.length + c - 1) / c : ℕ) : ℤ) = ⌈(images.length : ℚ) / (c : ℚ)⌉) ∧
    (∃ g, create_images_grid_by_rows images gap r none = AnnotResult.done g ∧
      g.width = images.headI.width * ((images.length + r - 1) / r) +
        gap * ((images.length + r - 1) / r - 1) ∧
      g.height = images.headI.height * r + gap * (r - 1) ∧
      (((images.length + r - 1) / r : ℕ) : ℤ) = ⌈(images.length : ℚ) / (r : ℚ)⌉) := by
  constructor
  · refine ⟨_, rfl, ?_, ?_, add_pred_div_eq_ceil _ _ hc⟩
    · rw [(arrange_dims _ _ _ _ _).1]
      simp [Image.new, Image.size, Nat.mul_comm]
    · rw [(arrange_dims _ _ _ _ _).2]
      simp [Image.new, Image.size, Nat.mul_comm]
  · refine ⟨_, rfl, ?_, ?_, add_pred_div_eq_ceil _ _ hr⟩
    · rw [(arrange_dims _ _ _ _ _).1]
      simp [Image.new, Image.size, Nat.mul_comm]
    · rw [(arrange_dims _ _ _ _ _).2]
      simp [Image.new, Image.size, Nat.mul_comm]

/-- Example image used by the witnesses: a `1 × 1` canvas. -/
def exImage1 : Image := ⟨1, 1, fun _ _ => 3⟩

/-- Witness for C1 at `images = [exImage1]`, `gap = 0`, counts `1`. -/
theorem C1_canvas_dimensions_witness :
    ([exImage1] : List Image) ≠ [] ∧ 1 ≤ 1 ∧ 1 ≤ 1 ∧
    ((∃ g, create_images_grid_by_columns [exImage1] 0 1 none = AnnotResult.done g ∧
      g.width = ([exImage1] : List Image).headI.width * 1 + 0 * (1 - 1) ∧
      g.height = ([exImage1] : List Image).headI.height * ((( [exImage1] : List Image).length + 1 - 1) / 1) +
        0 * ((( [exImage1] : List Image).length + 1 - 1) / 1 - 1) ∧
      ((((( [exImage1] : List Image).length + 1 - 1) / 1 : ℕ) : ℤ) =
        ⌈((( [exImage1] : List Image).length : ℚ)) / ((1 : ℕ) : ℚ)⌉)) ∧
    (∃ g, create_images_grid_by_rows [exImage1] 0 1 none = AnnotResult.done g ∧
      g.width = ([exImage1] : List Image).headI.width * ((( [exImage1] : List Image).length + 1 - 1) / 1) +
        0 * ((( [exImage1] : List Image).length + 1 - 1) / 1 - 1) ∧
      g.height = ([exImage1] : List Image).headI.height * 1 + 0 * (1 - 1) ∧
      ((((( [exImage1] : List Image).length + 1 - 1) / 1 : ℕ) : ℤ) =
        ⌈((( [exImage1] : List Image).length : ℚ)) / ((1 : ℕ) : ℚ)⌉))) :=
  ⟨List.cons_ne_nil _ _, le_refl 1, le_refl 1,
    C1_canvas_dimensions [exImage1] 0 1 1 (List.cons_ne_nil _ _) (le_refl 1) (le_refl 1)⟩

/-- Folding an append-one-element step builds `acc ++ l.map F`. -/
theorem foldl_append_pairs {α β : Type} (F : α → β) :
    ∀ (l : List α) (acc : List β),
      List.foldl (fun g p => g ++ [F p]) acc l = acc ++ l.map F := by
  intro l
  induction l with
  | nil => intro acc; simp
  | cons a l ih => intro acc; simp [ih]

/-- Mapping a function of the index over `enumFrom` is a map over a range. -/
theorem enumFrom_map_fst_apply {α β : Type} (G : Nat → β) :
    ∀ (l : List α) (n : Nat),
      (List.enumFrom n l).map (fun p => G p.1) =
        (List.range l.length).map (fun i => G (n + i)) := by
  intro l
  induction l with
  | nil => intro n; rfl
  | cons a l ih =>
    intro n
    have hfun : ((fun i => G (n + i)) ∘ Nat.succ) = (fun i => G (n + 1 + i)) := by
      funext i
      exact congrArg G (by omega)
    simp only [List.enumFrom, List.map_cons, ih, List.length_cons,
      List.range_succ_eq_map, List.map_map, hfun]
    simp

/-- `enumFrom` indexes: the `i`-th entry pairs `n + i` with the `i`-th
element. -/
theorem enumFrom_getElem? {α : Type} :
    ∀ (l : List α) (n i : Nat),
      (List.enumFrom n l)[i]? = (l[i]?).map (fun a => (n + i, a)) := by
  intro l
  induction l with
  | nil => intro n i; rfl
  | cons a l ih =>
    intro n i
    cases i with
    | zero => simp [List.enumFrom]
    | succ i =>
      simp only [List.enumFrom, List.getElem?_cons_succ, ih]
      cases l[i]? <;> simp <;> omega

/-- The paste calls of `_arrange_images_on_grid`, one per input image in
order: the image (cropped when its size differs from the tile size) and
the destination `((i % cols) * (tileW + gap), (i / cols) * (tileH + gap))`. -/
theorem arrangePasteLog_eq (images : List Image) (size : Nat × Nat)
    (c gap : Nat) :
    arrangePasteLog images size c gap = images.enum.map (fun p =>
      (if p.2.size ≠ size then p.2.crop size.1 size.2 else p.2,
       ((p.1 % c) * (size.1 + gap), (p.1 / c) * (size.2 + gap)))) := by
  unfold arrangePasteLog _arrange_images_on_grid
  rw [foldl_append_pairs (fun p =>
      (if p.2.size ≠ size then p.2.crop size.1 size.2 else p.2,
       ((p.1 % c) * (size.1 + gap), (p.1 / c) * (size.2 + gap)))) images.enum []]
  simp

/-- Pixel of a paste inside the pasted rectangle. -/
theorem Image.paste_pixel_in (dst src : Image) (ox oy x y : Nat)
    (h1 : ox ≤ x) (h2 : x < ox + src.width) (h3 : oy ≤ y) (h4 : y < oy + src.height) :
    (dst.paste src (ox, oy)).pixel x y = src.pixel (x - ox) (y - oy) := by
  simp only [Image.paste]
  rw [if_pos ⟨h1, h2, h3, h4⟩]

/-- Pixel of a paste outside the pasted rectangle. -/
theorem Image.paste_pixel_out (dst src : Image) (ox oy x y : Nat)
    (h : x < ox ∨ ox + src.width ≤ x ∨ y < oy ∨ oy + src.height ≤ y) :
    (dst.paste src (ox, oy)).pixel x y = dst.pixel x y := by
  simp only [Image.paste]
  rw [if_neg (by omega)]

/-- Congruence helper for pixel functions. -/
theorem pixel_fun_congr (p : Nat → Nat → Color) {a b u v : Nat}
    (h1 : a = u) (h2 : b = v) : p a b = p u v := by rw [h1, h2]

/-! ### C2 -/

/-- C2: every image at linear index `i` is pasted at origin
`((i % maxColumns) * (tileW + gap), (i / maxColumns) * (tileH + gap))`
(stated on the sequence of paste calls the placer performs); and 4 images
of size 10×10 with gap 2 and `maxColumns = 2` yield a 22×22 canvas with
the tiles visible at `(0,0)`, `(12,0)`, `(0,12)`, `(12,12)`. -/
theorem C2_tile_positions (images : List Image) (size : Nat × Nat) (c gap : Nat)
    (hc : 1 ≤ c) (p1 p2 p3 p4 : Nat → Nat → Color) :
    ((arrangePasteLog images size c gap).map (fun e => e.2) =
      (List.range images.length).map (fun i =>
        ((i % c) * (size.1 + gap), (i / c) * (size.2 + gap)))) ∧
    (∃ g, create_images_grid_by_columns
        [⟨10, 10, p1⟩, ⟨10, 10, p2⟩, ⟨10, 10, p3⟩, ⟨10, 10, p4⟩] 2 2 none =
          AnnotResult.done g ∧
      g.width = 22 ∧ g.height = 22 ∧
      ∀ u v, u < 10 → v < 10 →
        g.pixel u v = p1 u v ∧ g.pixel (12 + u) v = p2 u v ∧
        g.pixel u (12 + v) = p3 u v ∧ g.pixel (12 + u) (12 + v) = p4 u v) := by
  constructor
  · rw [arrangePasteLog_eq, List.map_map]
    have hcomp : ((fun e => e.2) ∘ (fun p =>
        (if p.2.size ≠ size then p.2.crop size.1 size.2 else p.2,
         ((p.1 % c) * (size.1 + gap), (p.1 / c) * (size.2 + gap))))) =
        (fun p : Nat × Image => ((p.1 % c) * (size.1 + gap), (p.1 / c) * (size.2 + gap))) := by
      funext p
      rfl
    rw [hcomp]
    rw [show images.enum = List.enumFrom 0 images from rfl]
    rw [enumFrom_map_fst_apply (fun i => ((i % c) * (size.1 + gap), (i / c) * (size.2 + gap)))]
    apply List.map_congr_left
    intro i _
    simp
  · refine ⟨_, rfl, ?_, ?_, ?_⟩
    · rw [(arrange_dims _ _ _ _ _).1]
      norm_num [Image.new, Image.size, List.headI]
    · rw [(arrange_dims _ _ _ _ _).2]
      norm_num [Image.new, Image.size, List.headI]
    · intro u v hu hv
      refine ⟨?_, ?_, ?_, ?_⟩ <;>
      · simp only [_arrange_images_on_grid, List.enum, List.enumFrom, List.foldl_cons,
          List.foldl_nil, List.headI, Image.size, Image.new, Image.crop, ne_eq,
          Image.paste, Prod.mk.injEq, and_self, not_true, ite_false]
        split_ifs <;>
          first
            | (exact pixel_fun_congr _ (by omega) (by omega))
            | (exfalso; omega)

/-- Witness for C2 (trivial image list for the generic part; constant
pixel functions for the 2×2 scenario). -/
theorem C2_tile_positions_witness :
    1 ≤ 1 ∧
    (((arrangePasteLog [] (0, 0) 1 0).map (fun e => e.2) =
      (List.range ([] : List Image).length).map (fun i =>
        ((i % 1) * (0 + 0), (i / 1) * (0 + 0)))) ∧
    (∃ g, create_images_grid_by_columns
        [⟨10, 10, fun _ _ => 0⟩, ⟨10, 10, fun _ _ => 0⟩,
         ⟨10, 10, fun _ _ => 0⟩, ⟨10, 10, fun _ _ => 0⟩] 2 2 none =
          AnnotResult.done g ∧
      g.width = 22 ∧ g.height = 22 ∧
      ∀ u v, u < 10 → v < 10 →
        g.pixel u v = (fun _ _ => 0 : Nat → Nat → Color) u v ∧
        g.pixel (12 + u) v = (fun _ _ => 0 : Nat → Nat → Color) u v ∧
        g.pixel u (12 + v) = (fun _ _ => 0 : Nat → Nat → Color) u v ∧
        g.pixel (12 + u) (12 + v) = (fun _ _ => 0 : Nat → Nat → Color) u v)) :=
  ⟨le_refl 1, C2_tile_positions [] (0, 0) 1 0 (le_refl 1)
    (fun _ _ => 0) (fun _ _ => 0) (fun _ _ => 0) (fun _ _ => 0)⟩

/-! ### C3 -/

/-- C3: requesting an annotation with an empty column-label or row-label
sequence makes `_create_grid_annotations` (and the whole grid build) raise
`ValueError("Column text or row text is empty")`, independently of the
font, grid, and the other arguments — while the un-annotated grid build
always returns a grid; with both sequences non-empty no such error is
raised. -/
theorem C3_empty_labels_validation (gi : _GridInfo) (cols rows : List String)
    (f : Font) (images : List Image) (gap c r : Nat) :
    ((cols = [] ∨ rows = []) →
      (_create_grid_annots gi cols rows f = AnnotResult.raised emptyTextsMsg ∧
       _create_images_grid images gap c r (some ⟨cols, rows, f⟩) =
         AnnotResult.raised emptyTextsMsg ∧
       ∃ g, _create_images_grid images gap c r none = AnnotResult.done g)) ∧
    (cols ≠ [] → rows ≠ [] →
      ∀ msg, _create_grid_annots gi cols rows f ≠ AnnotResult.raised msg) := by
  constructor
  · intro h
    refine ⟨?_, ?_, ⟨_, rfl⟩⟩
    · unfold _create_grid_annots
      rw [if_pos h]
    · show _create_grid_annots _ _ _ _ = _
      unfold _create_grid_annots
      rw [if_pos h]
  · intro h1 h2 msg
    unfold _create_grid_annots
    rw [if_neg (by simp [h1, h2])]
    cases hcol : _draw_column_text f (fun img pos t => ImageDraw.text img f pos t)
        cols gi (annot_left_padding f rows) (annot_top_padding f)
        (_paste_image_to_lower_left_corner
          (Image.new (gi.image.width + annot_left_padding f rows)
            (gi.image.height + annot_top_padding f) whiteColor) gi.image) with
    | none => simp [hcol]
    | some image3 =>
      simp only [hcol]
      cases hrow : _draw_row_text f (fun img pos t => ImageDraw.text img f pos t)
          rows gi (annot_left_padding f rows) (annot_top_padding f) image3 with
      | none => simp [hrow]
      | some image4 => simp [hrow]

/-- Example string for witnesses. -/
def exStrA : String := "a"

/-- Example font: size 4, every string measuring `3/2` wide, with a
degenerate bounding box and a rasterizer that inks nothing. -/
def exFont : Font := ⟨4, fun _ => 3 / 2, fun _ => (0, 0, 0, 0), fun _ _ _ _ => none⟩

/-- Example grid info: the 1×1 grid with gap 0 and tile size 1×1. -/
def exGI : _GridInfo := ⟨exImage1, 0, (1, 1)⟩

/-- Witness for C3: the error is raised for an empty column-label list and
not raised when both lists are non-empty. -/
theorem C3_empty_labels_validation_witness :
    (_create_grid_annots exGI [] [exStrA] exFont = AnnotResult.raised emptyTextsMsg) ∧
    (∀ msg, _create_grid_annots exGI [exStrA] [exStrA] exFont ≠ AnnotResult.raised msg) :=
  ⟨((C3_empty_labels_validation exGI [] [exStrA] exFont [exImage1] 0 1 1).1 (Or.inl rfl)).1,
   (C3_empty_labels_validation exGI [exStrA] [exStrA] exFont [exImage1] 0 1 1).2
     (List.cons_ne_nil _ _) (List.cons_ne_nil _ _)⟩

/-! ### C4 and C8: cropping behaviour of the tile placer -/

/-- The `i`-th paste call of the placer: the `i`-th image (cropped when
its size differs from the tile size) at the `i`-th tile origin. -/
theorem arrangePasteLog_getElem (images : List Image) (size : Nat × Nat)
    (c gap i : Nat) (img : Image) (hi : images[i]? = some img) :
    (arrangePasteLog images size c gap)[i]? = some
      (if img.size ≠ size then img.crop size.1 size.2 else img,
       ((i % c) * (size.1 + gap), (i / c) * (size.2 + gap))) := by
  rw [arrangePasteLog_eq, List.getElem?_map,
    show images.enum = List.enumFrom 0 images from rfl, enumFrom_getElem?, hi]
  simp

/-- Example image pair: a 2×2 first image (fixing the tile size) and a
strictly smaller 1×1 second image. -/
def exBig : Image := ⟨2, 2, fun _ _ => 5⟩

/-- The 1×1 image pasted after `exBig`. -/
def exSmall : Image := ⟨1, 1, fun _ _ => 7⟩

/-- Counterexample to C4 as stated: the 1×1 image `exSmall`, strictly
smaller than the 2×2 tile size, is not pasted as-is: the image actually
passed to `paste` is the crop, of width 2 (not 1), with the out-of-source
region zero-filled (black), so a pad is applied. -/
theorem C4_counterexample :
    ((arrangePasteLog [exBig, exSmall] (2, 2) 2 0).getD 1 default).1.width = 2 ∧
    exSmall.width = 1 ∧
    ((arrangePasteLog [exBig, exSmall] (2, 2) 2 0).getD 1 default).1 ≠ exSmall ∧
    ((arrangePasteLog [exBig, exSmall] (2, 2) 2 0).getD 1 default).1.pixel 1 1 = blackColor ∧
    (arrangePasteLog [exBig, exSmall] (2, 2) 2 0).length = 2 := by
  refine ⟨rfl, rfl, ?_, rfl, rfl⟩
  intro h
  exact absurd (congrArg Image.width h) (by decide)

/-- C4 (amended): an input image strictly smaller than the tile size is
not pasted as-is — the placer applies `crop((0, 0, tileW, tileH))` to it
before pasting, which keeps the source pixels top-left anchored and
zero-fills (pads) the region beyond the source bounds. -/
theorem C4_small_images_cropped (images : List Image) (size : Nat × Nat)
    (c gap i : Nat) (img : Image) (hi : images[i]? = some img)
    (hw : img.width < size.1) (hh : img.height < size.2) :
    ∃ e, (arrangePasteLog images size c gap)[i]? = some e ∧
      e.1 = img.crop size.1 size.2 ∧
      e.1.size = size ∧
      (∀ x y, x < img.width → y < img.height → e.1.pixel x y = img.pixel x y) ∧
      (∀ x y, x < size.1 → y < size.2 → (img.width ≤ x ∨ img.height ≤ y) →
        e.1.pixel x y = blackColor) := by
  have hne : img.size ≠ size := by
    intro heq
    rw [Image.size, Prod.ext_iff] at heq
    omega
  have hne' : (img.width, img.height) ≠ size := by simpa [Image.size] using hne
  refine ⟨_, arrangePasteLog_getElem images size c gap i img hi, ?_, ?_, ?_, ?_⟩
  · simp [hne]
  · simp [Image.size, hne', Image.crop]
  · intro x y hx hy
    simp [hne, Image.crop, hx, hy]
  · intro x y hx hy hout
    simp only [if_pos hne, Image.crop]
    rw [if_neg (by omega)]

/-- Witness for C4 (amended) at the concrete pair `[exBig, exSmall]`. -/
theorem C4_small_images_cropped_witness :
    ([exBig, exSmall] : List Image)[1]? = some exSmall ∧
    exSmall.width < 2 ∧ exSmall.height < 2 ∧
    (∃ e, (arrangePasteLog [exBig, exSmall] (2, 2) 2 0)[1]? = some e ∧
      e.1 = exSmall.crop 2 2 ∧
      e.1.size = (2, 2) ∧
      (∀ x y, x < exSmall.width → y < exSmall.height → e.1.pixel x y = exSmall.pixel x y) ∧
      (∀ x y, x < 2 → y < 2 → (exSmall.width ≤ x ∨ exSmall.height ≤ y) →
        e.1.pixel x y = blackColor)) :=
  ⟨rfl, by decide, by decide,
   C4_small_images_cropped [exBig, exSmall] (2, 2) 2 0 1 exSmall rfl
     (by decide) (by decide)⟩

/-- C8: when an image's size differs from the tile size, the placer does
not modify it in place: the image passed to `paste` is the freshly
allocated crop to `(0,0)-(tileW,tileH)` — a different image value from the
source — of exactly the tile size, top-left anchored and never scaled
(the overlapping pixels are the source's own, at unchanged coordinates). -/
theorem C8_crop_is_fresh (images : List Image) (size : Nat × Nat)
    (c gap i : Nat) (img : Image) (hi : images[i]? = some img)
    (hne : img.size ≠ size) :
    ∃ e, (arrangePasteLog images size c gap)[i]? = some e ∧
      e.1 = img.crop size.1 size.2 ∧
      e.1.size = size ∧
      e.1 ≠ img ∧
      (∀ x y, x < img.width → y < img.height → e.1.pixel x y = img.pixel x y) := by
  have hne' : (img.width, img.height) ≠ size := by simpa [Image.size] using hne
  refine ⟨_, arrangePasteLog_getElem images size c gap i img hi, ?_, ?_, ?_, ?_⟩
  · simp [hne]
  · simp [Image.size, hne', Image.crop]
  · intro heq
    apply hne
    have : (if img.size ≠ size then img.crop size.1 size.2 else img, ((i % c) * (size.1 + gap), (i / c) * (size.2 + gap))).1 = img.crop size.1 size.2 := by simp [hne]
    rw [this] at heq
    rw [← heq, Image.size, Image.crop]
  · intro x y hx hy
    simp [hne, Image.crop, hx, hy]

/-- Witness for C8 at the concrete pair `[exBig, exSmall]`. -/
theorem C8_crop_is_fresh_witness :
    ([exBig, exSmall] : List Image)[1]? = some exSmall ∧
    exSmall.size ≠ (2, 2) ∧
    (∃ e, (arrangePasteLog [exBig, exSmall] (2, 2) 2 0)[1]? = some e ∧
      e.1 = exSmall.crop 2 2 ∧
      e.1.size = (2, 2) ∧
      e.1 ≠ exSmall ∧
      (∀ x y, x < exSmall.width → y < exSmall.height → e.1.pixel x y = exSmall.pixel x y)) :=
  ⟨rfl, by decide,
   C8_crop_is_fresh [exBig, exSmall] (2, 2) 2 0 1 exSmall rfl (by decide)⟩

/-! ### The band loops -/

/-- The `while x0 != x0 + n*step` loop exits after exactly `n` iterations
when the step is positive (fuel `n*step` suffices). -/
theorem whileBandCount_exact (step : Nat) (hstep : 1 ≤ step) :
    ∀ (n x0 fuel : Nat), n * step ≤ fuel →
      whileBandCount step (x0 + n * step) fuel x0 = some n := by
  intro n
  induction n with
  | zero =>
    intro x0 fuel hfuel
    rw [whileBandCount.eq_def]
    simp
  | succ n ih =>
    intro x0 fuel hfuel
    have hpos : 0 < (n + 1) * step := Nat.mul_pos (Nat.succ_pos n) hstep
    have hne : x0 ≠ x0 + (n + 1) * step := Nat.ne_of_lt (Nat.lt_add_of_pos_right hpos)
    cases fuel with
    | zero => exact absurd (Nat.le_trans hpos hfuel) (by omega)
    | succ fuel' =>
      rw [whileBandCount.eq_def]
      simp only [if_neg hne]
      have hb : x0 + (n + 1) * step = (x0 + step) + n * step := by
        rw [Nat.succ_mul]; ring
      have hf : n * step ≤ fuel' := by
        have h1 : n * step + step ≤ fuel' + 1 := by rw [← Nat.succ_mul]; exact hfuel
        have h2 : n * step + 1 ≤ n * step + step := Nat.add_le_add_left hstep _
        exact Nat.succ_le_succ_iff.mp (le_trans h2 h1)
      rw [hb, ih (x0 + step) fuel' hf]
      rfl

/-- Invariant lemma for the column loop: a property preserved by every
centered draw into a top band is preserved by the whole loop, which
terminates when the boundary is `start + n*step` and the step is
positive. -/
theorem draw_col_go_inv {σ : Type} (f : Font) (prim : σ → ℚ × ℚ → String → σ)
    (texts : List String) (step tp : Nat) (hstep : 1 ≤ step)
    (P : σ → Prop)
    (hP : ∀ s i x0 x1, P s → P ((_draw_text_by_xy f prim (x0, 0, x1, tp) i s texts).2)) :
    ∀ (n x0 x1 i : Nat) (s : σ) (fuel : Nat), n * step ≤ fuel → P s →
      ∃ s', _draw_col_go f prim texts step (x0 + n * step) tp fuel x0 x1 i s = some s' ∧ P s' := by
  intro n
  induction n with
  | zero =>
    intro x0 x1 i s fuel hfuel hs
    refine ⟨s, ?_, hs⟩
    rw [_draw_col_go.eq_def]
    simp
  | succ n ih =>
    intro x0 x1 i s fuel hfuel hs
    have hpos : 0 < (n + 1) * step := Nat.mul_pos (Nat.succ_pos n) hstep
    have hne : x0 ≠ x0 + (n + 1) * step := Nat.ne_of_lt (Nat.lt_add_of_pos_right hpos)
    cases fuel with
    | zero => exact absurd (Nat.le_trans hpos hfuel) (by omega)
    | succ fuel' =>
      have hb : x0 + (n + 1) * step = (x0 + step) + n * step := by
        rw [Nat.succ_mul]; ring
      have hf : n * step ≤ fuel' := by
        have h1 : n * step + step ≤ fuel' + 1 := by rw [← Nat.succ_mul]; exact hfuel
        have h2 : n * step + 1 ≤ n * step + step := Nat.add_le_add_left hstep _
        exact Nat.succ_le_succ_iff.mp (le_trans h2 h1)
      obtain ⟨s', heq, hPs'⟩ := ih (x0 + step) (x1 + step)
        (_draw_text_by_xy f prim (x0, 0, x1, tp) i s texts).1
        (_draw_text_by_xy f prim (x0, 0, x1, tp) i s texts).2 fuel' hf (hP s i x0 x1 hs)
      refine ⟨s', ?_, hPs'⟩
      rw [_draw_col_go.eq_def]
      simp only [if_neg hne]
      rw [hb]
      exact heq

/-- Invariant lemma for the row loop (bands `(0, y0, lp, y1)`). -/
theorem draw_row_go_inv {σ : Type} (f : Font) (prim : σ → ℚ × ℚ → String → σ)
    (texts : List String) (step lp : Nat) (hstep : 1 ≤ step)
    (P : σ → Prop)
    (hP : ∀ s i y0 y1, P s → P ((_draw_text_by_xy f prim (0, y0, lp, y1) i s texts).2)) :
    ∀ (n y0 y1 i : Nat) (s : σ) (fuel : Nat), n * step ≤ fuel → P s →
      ∃ s', _draw_row_go f prim texts step (y0 + n * step) lp fuel y0 y1 i s = some s' ∧ P s' := by
  intro n
  induction n with
  | zero =>
    intro y0 y1 i s fuel hfuel hs
    refine ⟨s, ?_, hs⟩
    rw [_draw_row_go.eq_def]
    simp
  | succ n ih =>
    intro y0 y1 i s fuel hfuel hs
    have hpos : 0 < (n + 1) * step := Nat.mul_pos (Nat.succ_pos n) hstep
    have hne : y0 ≠ y0 + (n + 1) * step := Nat.ne_of_lt (Nat.lt_add_of_pos_right hpos)
    cases fuel with
    | zero => exact absurd (Nat.le_trans hpos hfuel) (by omega)
    | succ fuel' =>
      have hb : y0 + (n + 1) * step = (y0 + step) + n * step := by
        rw [Nat.succ_mul]; ring
      have hf : n * step ≤ fuel' := by
        have h1 : n * step + step ≤ fuel' + 1 := by rw [← Nat.succ_mul]; exact hfuel
        have h2 : n * step + 1 ≤ n * step + step := Nat.add_le_add_left hstep _
        exact Nat.succ_le_succ_iff.mp (le_trans h2 h1)
      obtain ⟨s', heq, hPs'⟩ := ih (y0 + step) (y1 + step)
        (_draw_text_by_xy f prim (0, y0, lp, y1) i s texts).1
        (_draw_text_by_xy f prim (0, y0, lp, y1) i s texts).2 fuel' hf (hP s i y0 y1 hs)
      refine ⟨s', ?_, hPs'⟩
      rw [_draw_row_go.eq_def]
      simp only [if_neg hne]
      rw [hb]
      exact heq

/-- The column loop observed through a label log: starting at index `i`,
visiting `n` bands appends exactly the available labels
`texts[i], texts[i+1], ...` — i.e. `(texts.drop i).take n`. -/
theorem draw_col_go_log (f : Font) (texts : List String) (step tp : Nat)
    (hstep : 1 ≤ step) :
    ∀ (n x0 x1 i : Nat) (acc : List String) (fuel : Nat), n * step ≤ fuel →
      _draw_col_go (σ := List String) f (fun l _ t => l ++ [t]) texts step
          (x0 + n * step) tp fuel x0 x1 i acc =
        some (acc ++ (texts.drop i).take n) := by
  intro n
  induction n with
  | zero =>
    intro x0 x1 i acc fuel hfuel
    rw [_draw_col_go.eq_def]
    simp
  | succ n ih =>
    intro x0 x1 i acc fuel hfuel
    have hpos : 0 < (n + 1) * step := Nat.mul_pos (Nat.succ_pos n) hstep
    have hne : x0 ≠ x0 + (n + 1) * step := Nat.ne_of_lt (Nat.lt_add_of_pos_right hpos)
    cases fuel with
    | zero => exact absurd (Nat.le_trans hpos hfuel) (by omega)
    | succ fuel' =>
      have hb : x0 + (n + 1) * step = (x0 + step) + n * step := by
        rw [Nat.succ_mul]; ring
      have hf : n * step ≤ fuel' := by
        have h1 : n * step + step ≤ fuel' + 1 := by rw [← Nat.succ_mul]; exact hfuel
        have h2 : n * step + 1 ≤ n * step + step := Nat.add_le_add_left hstep _
        exact Nat.succ_le_succ_iff.mp (le_trans h2 h1)
      rw [_draw_col_go.eq_def]
      simp only [if_neg hne]
      rw [hb]
      cases hti : texts[i]? with
      | some t =>
        simp only [_draw_text_by_xy, _draw_center_text, hti]
        rw [ih (x0 + step) (x1 + step) (i + 1) (acc ++ [t]) fuel' hf]
        congr 1
        rw [List.append_assoc]
        congr 1
        have hdrop : texts.drop i = t :: texts.drop (i + 1) := by
          obtain ⟨hlt, hget⟩ := List.getElem?_eq_some.mp hti
          rw [List.drop_eq_getElem_cons hlt, hget]
        rw [hdrop, List.take_succ_cons]
        rfl
      | none =>
        simp only [_draw_text_by_xy, hti]
        rw [ih (x0 + step) (x1 + step) (i + 1) acc fuel' hf]
        congr 1
        have h1 : texts.drop i = [] :=
          List.drop_eq_nil_of_le (List.getElem?_eq_none_iff.mp hti)
        have h2 : texts.drop (i + 1) = [] :=
          List.drop_eq_nil_of_le (by
            have := List.getElem?_eq_none_iff.mp hti
            omega)
        rw [h1, h2, List.take_nil, List.take_nil]

/-- The row loop observed through a label log (symmetric). -/
theorem draw_row_go_log (f : Font) (texts : List String) (step lp : Nat)
    (hstep : 1 ≤ step) :
    ∀ (n y0 y1 i : Nat) (acc : List String) (fuel : Nat), n * step ≤ fuel →
      _draw_row_go (σ := List String) f (fun l _ t => l ++ [t]) texts step
          (y0 + n * step) lp fuel y0 y1 i acc =
        some (acc ++ (texts.drop i).take n) := by
  intro n
  induction n with
  | zero =>
    intro y0 y1 i acc fuel hfuel
    rw [_draw_row_go.eq_def]
    simp
  | succ n ih =>
    intro y0 y1 i acc fuel hfuel
    have hpos : 0 < (n + 1) * step := Nat.mul_pos (Nat.succ_pos n) hstep
    have hne : y0 ≠ y0 + (n + 1) * step := Nat.ne_of_lt (Nat.lt_add_of_pos_right hpos)
    cases fuel with
    | zero => exact absurd (Nat.le_trans hpos hfuel) (by omega)
    | succ fuel' =>
      have hb : y0 + (n + 1) * step = (y0 + step) + n * step := by
        rw [Nat.succ_mul]; ring
      have hf : n * step ≤ fuel' := by
        have h1 : n * step + step ≤ fuel' + 1 := by rw [← Nat.succ_mul]; exact hfuel
        have h2 : n * step + 1 ≤ n * step + step := Nat.add_le_add_left hstep _
        exact Nat.succ_le_succ_iff.mp (le_trans h2 h1)
      rw [_draw_row_go.eq_def]
      simp only [if_neg hne]
      rw [hb]
      cases hti : texts[i]? with
      | some t =>
        simp only [_draw_text_by_xy, _draw_center_text, hti]
        rw [ih (y0 + step) (y1 + step) (i + 1) (acc ++ [t]) fuel' hf]
        congr 1
        rw [List.append_assoc]
        congr 1
        have hdrop : texts.drop i = t :: texts.drop (i + 1) := by
          obtain ⟨hlt, hget⟩ := List.getElem?_eq_some.mp hti
          rw [List.drop_eq_getElem_cons hlt, hget]
        rw [hdrop, List.take_succ_cons]
        rfl
      | none =>
        simp only [_draw_text_by_xy, hti]
        rw [ih (y0 + step) (y1 + step) (i + 1) acc fuel' hf]
        congr 1
        have h1 : texts.drop i = [] :=
          List.drop_eq_nil_of_le (List.getElem?_eq_none_iff.mp hti)
        have h2 : texts.drop (i + 1) = [] :=
          List.drop_eq_nil_of_le (by
            have := List.getElem?_eq_none_iff.mp hti
            omega)
        rw [h1, h2, List.take_nil, List.take_nil]

/-- `_draw_column_text` at a grid of `c ≥ 1` columns of `w`-wide tiles:
the loop bound is `left_padding + c*(w + gap)`, so the wrapper is the
column loop with exactly that bound and fuel `c*(w + gap)`. -/
theorem draw_column_text_eq_go {σ : Type} (f : Font) (prim : σ → ℚ × ℚ → String → σ)
    (texts : List String) (gi : _GridInfo) (lp tp w c gap : Nat) (s : σ)
    (hsize1 : gi.one_image_size.1 = w) (hgap : gi.gap = gap) (hc : 1 ≤ c)
    (hW : gi.image.width = w * c + (c - 1) * gap) :
    _draw_column_text f prim texts gi lp tp s =
      _draw_col_go f prim texts (w + gap) (lp + c * (w + gap)) tp (c * (w + gap))
        lp (lp + w) 0 s := by
  have hb : gi.image.width + lp + gap = lp + c * (w + gap) := by
    rw [hW]
    cases c with
    | zero => exact absurd hc (by omega)
    | succ c' =>
      simp only [Nat.succ_sub_one]
      ring
  simp only [_draw_column_text, hsize1, hgap, hb, Nat.add_sub_cancel_left]

/-- `_draw_row_text` at a grid of `r ≥ 1` rows of `h`-high tiles. -/
theorem draw_row_text_eq_go {σ : Type} (f : Font) (prim : σ → ℚ × ℚ → String → σ)
    (texts : List String) (gi : _GridInfo) (lp tp h r gap : Nat) (s : σ)
    (hsize2 : gi.one_image_size.2 = h) (hgap : gi.gap = gap) (hr : 1 ≤ r)
    (hH : gi.image.height = h * r + (r - 1) * gap) :
    _draw_row_text f prim texts gi lp tp s =
      _draw_row_go f prim texts (h + gap) (tp + r * (h + gap)) lp (r * (h + gap))
        tp (tp + h) 0 s := by
  have hb : gi.image.height + tp + gap = tp + r * (h + gap) := by
    rw [hH]
    cases r with
    | zero => exact absurd hr (by omega)
    | succ r' =>
      simp only [Nat.succ_sub_one]
      ring
  simp only [_draw_row_text, hsize2, hgap, hb, Nat.add_sub_cancel_left]

/-! ### C7 -/

/-- C7: for tile width and height ≥ 1 (and any gap), the column-label
loop — guarded by `x0 != gridWidth + leftPadding + gap`, stepping by
`tileW + gap` from `leftPadding` — terminates after exactly `maxColumns`
iterations, and the row-label loop after exactly `maxRows` iterations,
whatever the label lists are. -/
theorem C7_band_loops_terminate {σ : Type} (prim : σ → ℚ × ℚ → String → σ)
    (f : Font) (cts rts : List String) (gi : _GridInfo) (lp tp : Nat)
    (w h c r gap : Nat)
    (hsize : gi.one_image_size = (w, h)) (hgap : gi.gap = gap)
    (hw : 1 ≤ w) (hh : 1 ≤ h) (hc : 1 ≤ c) (hr : 1 ≤ r)
    (hW : gi.image.width = w * c + (c - 1) * gap)
    (hH : gi.image.height = h * r + (r - 1) * gap)
    (s : σ) :
    whileBandCount (w + gap) (gi.image.width + lp + gap)
      (gi.image.width + lp + gap - lp) lp = some c ∧
    whileBandCount (h + gap) (gi.image.height + tp + gap)
      (gi.image.height + tp + gap - tp) tp = some r ∧
    (∃ s', _draw_column_text f prim cts gi lp tp s = some s') ∧
    (∃ s', _draw_row_text f prim rts gi lp tp s = some s') := by
  have hstepc : 1 ≤ w + gap := by omega
  have hstepr : 1 ≤ h + gap := by omega
  have hbc : gi.image.width + lp + gap = lp + c * (w + gap) := by
    rw [hW]
    cases c with
    | zero => exact absurd hc (by omega)
    | succ c' =>
      simp only [Nat.succ_sub_one]
      ring
  have hbr : gi.image.height + tp + gap = tp + r * (h + gap) := by
    rw [hH]
    cases r with
    | zero => exact absurd hr (by omega)
    | succ r' =>
      simp only [Nat.succ_sub_one]
      ring
  refine ⟨?_, ?_, ?_, ?_⟩
  · rw [hbc, Nat.add_sub_cancel_left]
    exact whileBandCount_exact (w + gap) hstepc c lp _ (le_refl _)
  · rw [hbr, Nat.add_sub_cancel_left]
    exact whileBandCount_exact (h + gap) hstepr r tp _ (le_refl _)
  · obtain ⟨s', hs', -⟩ := draw_col_go_inv f prim cts (w + gap) tp hstepc
      (fun _ => True) (fun _ _ _ _ _ => trivial) c lp (lp + w) 0 s
      (c * (w + gap)) (le_refl _) trivial
    exact ⟨s', by
      rw [draw_column_text_eq_go f prim cts gi lp tp w c gap s
        (by rw [hsize]) hgap hc hW]
      exact hs'⟩
  · obtain ⟨s', hs', -⟩ := draw_row_go_inv f prim rts (h + gap) lp hstepr
      (fun _ => True) (fun _ _ _ _ _ => trivial) r tp (tp + h) 0 s
      (r * (h + gap)) (le_refl _) trivial
    exact ⟨s', by
      rw [draw_row_text_eq_go f prim rts gi lp tp h r gap s
        (by rw [hsize]) hgap hr hH]
      exact hs'⟩

/-- Witness for C7 on the 1×1 grid with one column and one row band. -/
theorem C7_band_loops_terminate_witness :
    exGI.one_image_size = (1, 1) ∧ 1 ≤ 1 ∧
    (whileBandCount (1 + 0) (exGI.image.width + 0 + 0)
      (exGI.image.width + 0 + 0 - 0) 0 = some 1 ∧
    whileBandCount (1 + 0) (exGI.image.height + 0 + 0)
      (exGI.image.height + 0 + 0 - 0) 0 = some 1 ∧
    (∃ s', _draw_column_text (σ := Nat) exFont (fun n _ _ => n) [exStrA] exGI 0 0 (0 : Nat) = some s') ∧
    (∃ s', _draw_row_text (σ := Nat) exFont (fun n _ _ => n) [exStrA] exGI 0 0 (0 : Nat) = some s')) :=
  ⟨rfl, le_refl 1,
    C7_band_loops_terminate (fun n _ _ => n) exFont [exStrA] [exStrA] exGI 0 0
      1 1 1 1 0 rfl rfl (le_refl 1) (le_refl 1) (le_refl 1) (le_refl 1) rfl rfl 0⟩

/-! ### C9 -/

/-- C9: during label drawing, the call for band `i` draws `texts[i]` when
`i < labelCount` and draws nothing (raising no error) when
`i ≥ labelCount`, advancing the index by one either way; consequently the
column loop draws exactly the labels `texts.take maxColumns` — that is,
`min(labelCount, bandCount)` labels, band `i` receiving label `i`, and no
label with index `≥` the band count is ever drawn; symmetrically for
rows. -/
theorem C9_label_indexing (f : Font) (cts rts : List String) (gi : _GridInfo)
    (lp tp w h c r gap : Nat)
    (hsize : gi.one_image_size = (w, h)) (hgap : gi.gap = gap)
    (hw : 1 ≤ w) (hh : 1 ≤ h) (hc : 1 ≤ c) (hr : 1 ≤ r)
    (hW : gi.image.width = w * c + (c - 1) * gap)
    (hH : gi.image.height = h * r + (r - 1) * gap) :
    (∀ {σ : Type} (prim : σ → ℚ × ℚ → String → σ) (xy : Rect) (i : Nat) (s : σ)
        (texts : List String),
      (_draw_text_by_xy f prim xy i s texts).1 = i + 1 ∧
      (texts[i]? = none → _draw_text_by_xy f prim xy i s texts = (i + 1, s)) ∧
      (∀ t, texts[i]? = some t →
        _draw_text_by_xy f prim xy i s texts =
          (i + 1, _draw_center_text f prim s xy t))) ∧
    (_draw_column_text f (fun l _ t => l ++ [t]) cts gi lp tp [] = some (cts.take c) ∧
      (cts.take c).length = min cts.length c ∧
      (∀ i, (cts.take c)[i]? = if i < c then cts[i]? else none)) ∧
    (_draw_row_text f (fun l _ t => l ++ [t]) rts gi lp tp [] = some (rts.take r) ∧
      (rts.take r).length = min rts.length r ∧
      (∀ i, (rts.take r)[i]? = if i < r then rts[i]? else none)) := by
  have hstepc : 1 ≤ w + gap := by omega
  have hstepr : 1 ≤ h + gap := by omega
  refine ⟨?_, ⟨?_, ?_, ?_⟩, ⟨?_, ?_, ?_⟩⟩
  · intro σ prim xy i s texts
    refine ⟨?_, ?_, ?_⟩
    · unfold _draw_text_by_xy
      cases h : texts[i]? <;> simp [h]
    · intro hnone
      simp [_draw_text_by_xy, hnone]
    · intro t ht
      simp [_draw_text_by_xy, ht]
  · rw [draw_column_text_eq_go f (fun l _ t => l ++ [t]) cts gi lp tp w c gap []
      (by rw [hsize]) hgap hc hW]
    rw [draw_col_go_log f cts (w + gap) tp hstepc c lp (lp + w) 0 [] (c * (w + gap))
      (le_refl _)]
    simp
  · rw [List.length_take]
    omega
  · intro i
    exact List.getElem?_take
  · rw [draw_row_text_eq_go f (fun l _ t => l ++ [t]) rts gi lp tp h r gap []
      (by rw [hsize]) hgap hr hH]
    rw [draw_row_go_log f rts (h + gap) lp hstepr r tp (tp + h) 0 [] (r * (h + gap))
      (le_refl _)]
    simp
  · rw [List.length_take]
    omega
  · intro i
    exact List.getElem?_take

/-- Witness for C9: two column labels against one band draw only the
first; zero-extra row labels draw all of them. -/
theorem C9_label_indexing_witness :
    _draw_column_text exFont (fun l _ t => l ++ [t]) [exStrA, exStrA] exGI 0 0 [] =
      some ([exStrA, exStrA].take 1) ∧
    _draw_row_text exFont (fun l _ t => l ++ [t]) [exStrA] exGI 0 0 [] =
      some ([exStrA].take 1) :=
  ⟨(C9_label_indexing exFont [exStrA, exStrA] [exStrA] exGI 0 0 1 1 1 1 0
      rfl rfl (le_refl 1) (le_refl 1) (le_refl 1) (le_refl 1) rfl rfl).2.1.1,
   (C9_label_indexing exFont [exStrA, exStrA] [exStrA] exGI 0 0 1 1 1 1 0
      rfl rfl (le_refl 1) (le_refl 1) (le_refl 1) (le_refl 1) rfl rfl).2.2.1⟩

/-! ### C10 -/

/-- C10: a label drawn in band `(x0, y0, x1, y1)` is passed to the text
service at exactly `((x1 - bboxW + x0) / 2, (y1 - bboxH + y0) / 2)`, where
`(bboxW, bboxH)` are the last two components (`right`, `bottom`) of the
bounding box that `textbbox((0,0), text)` reports — the offset top-left
bearing included, not just the advance width; on the real canvas the
drawn pixels are the rasterizer's ink at that same position. -/
theorem C10_center_position {σ : Type} (f : Font) (prim : σ → ℚ × ℚ → String → σ)
    (s : σ) (xy : Rect) (text : String) :
    (_draw_center_text f prim s xy text =
      prim s
        (((xy.2.2.1 : ℚ) - (f.bbox text).2.2.1 + (xy.1 : ℚ)) / 2,
         ((xy.2.2.2 : ℚ) - (f.bbox text).2.2.2 + (xy.2.1 : ℚ)) / 2)
        text) ∧
    (∀ (img : Image) (x y : Nat),
      (_draw_center_text f (fun im pos t => ImageDraw.text im f pos t) img xy text).pixel x y =
        (f.render text
          (((xy.2.2.1 : ℚ) - (f.bbox text).2.2.1 + (xy.1 : ℚ)) / 2,
           ((xy.2.2.2 : ℚ) - (f.bbox text).2.2.2 + (xy.2.1 : ℚ)) / 2) x y).getD
          (img.pixel x y)) :=
  ⟨rfl, fun _ _ _ => rfl⟩

/-! ### C5 -/

/-- The draw of one label never changes the canvas dimensions. -/
theorem draw_text_by_xy_dims (f : Font) (texts : List String) (xy : Rect)
    (i : Nat) (img : Image) :
    ((_draw_text_by_xy f (fun im pos t => ImageDraw.text im f pos t) xy i img texts).2).width = img.width ∧
    ((_draw_text_by_xy f (fun im pos t => ImageDraw.text im f pos t) xy i img texts).2).height = img.height := by
  unfold _draw_text_by_xy _draw_center_text ImageDraw.text
  cases h : texts[i]? <;> simp [h]

/-- For non-empty label sequences and a well-formed grid, the compositor
returns a canvas of size `(gridW + leftPadding, gridH + topPadding)` with
`leftPadding = ⌊max textWidth over row labels⌋ + 2*(fontSize/2)` and
`topPadding = fontSize + 2*(fontSize/2)`. -/
theorem annot_canvas_dims (gi : _GridInfo) (cols rows : List String) (f : Font)
    (w h c r gap : Nat)
    (hsize : gi.one_image_size = (w, h)) (hgap : gi.gap = gap)
    (hw : 1 ≤ w) (hh : 1 ≤ h) (hc : 1 ≤ c) (hr : 1 ≤ r)
    (hW : gi.image.width = w * c + (c - 1) * gap)
    (hH : gi.image.height = h * r + (r - 1) * gap)
    (hcols : cols ≠ []) (hrows : rows ≠ []) :
    ∃ final, _create_grid_annots gi cols rows f = AnnotResult.done final ∧
      final.width = gi.image.width +
        ((⌊pyMax (rows.map f.getlength)⌋).toNat + 2 * (f.size / 2)) ∧
      final.height = gi.image.height + (f.size + 2 * (f.size / 2)) := by
  have hstepc : 1 ≤ w + gap := by omega
  have hstepr : 1 ≤ h + gap := by omega
  have hP0 :
      (_paste_image_to_lower_left_corner
        (Image.new (gi.image.width + annot_left_padding f rows)
          (gi.image.height + annot_top_padding f) whiteColor) gi.image).width =
          gi.image.width + annot_left_padding f rows ∧
      (_paste_image_to_lower_left_corner
        (Image.new (gi.image.width + annot_left_padding f rows)
          (gi.image.height + annot_top_padding f) whiteColor) gi.image).height =
          gi.image.height + annot_top_padding f := by
    simp [_paste_image_to_lower_left_corner, Image.paste, Image.new]
  obtain ⟨img3, hgo3, hd3⟩ := draw_col_go_inv f
    (fun im pos t => ImageDraw.text im f pos t) cols (w + gap) (annot_top_padding f)
    hstepc
    (fun img => img.width = gi.image.width + annot_left_padding f rows ∧
      img.height = gi.image.height + annot_top_padding f)
    (fun s i x0 x1 hs => by
      have hd := draw_text_by_xy_dims f cols (x0, 0, x1, annot_top_padding f) i s
      exact ⟨hd.1.trans hs.1, hd.2.trans hs.2⟩)
    c (annot_left_padding f rows) (annot_left_padding f rows + w) 0 _
    (c * (w + gap)) (le_refl _) hP0
  obtain ⟨img4, hgo4, hd4⟩ := draw_row_go_inv f
    (fun im pos t => ImageDraw.text im f pos t) rows (h + gap) (annot_left_padding f rows)
    hstepr
    (fun img => img.width = gi.image.width + annot_left_padding f rows ∧
      img.height = gi.image.height + annot_top_padding f)
    (fun s i y0 y1 hs => by
      have hd := draw_text_by_xy_dims f rows (0, y0, annot_left_padding f rows, y1) i s
      exact ⟨hd.1.trans hs.1, hd.2.trans hs.2⟩)
    r (annot_top_padding f) (annot_top_padding f + h) 0 img3
    (r * (h + gap)) (le_refl _) hd3
  have hc3 : _draw_column_text f (fun im pos t => ImageDraw.text im f pos t) cols gi
      (annot_left_padding f rows) (annot_top_padding f)
      (_paste_image_to_lower_left_corner
        (Image.new (gi.image.width + annot_left_padding f rows)
          (gi.image.height + annot_top_padding f) whiteColor) gi.image) = some img3 := by
    rw [draw_column_text_eq_go f _ cols gi _ _ w c gap _ (by rw [hsize]) hgap hc hW]
    exact hgo3
  have hc4 : _draw_row_text f (fun im pos t => ImageDraw.text im f pos t) rows gi
      (annot_left_padding f rows) (annot_top_padding f) img3 = some img4 := by
    rw [draw_row_text_eq_go f _ rows gi _ _ h r gap _ (by rw [hsize]) hgap hr hH]
    exact hgo4
  refine ⟨img4, ?_, ?_, ?_⟩
  · unfold _create_grid_annots
    rw [if_neg (by simp [hcols, hrows])]
    simp only [hc3, hc4]
  · rw [hd4.1]
    simp [annot_left_padding, annot_margin]
  · rw [hd4.2]
    simp [annot_top_padding, annot_margin]

/-- C5 (amended): for non-empty label sequences (and a well-formed grid),
the compositor allocates the annotated canvas at size exactly
`(gridW + leftPadding, gridH + topPadding)` where
`margin = ⌊fontSize/2⌋`, `topPadding = fontSize + 2*margin`, and
`leftPadding = ⌊max textWidth over row labels⌋ + 2*margin` — the maximum
width is truncated to an integer (`int(...)` in the source) before the
margins are added. -/
theorem C5_annot_canvas_size (gi : _GridInfo) (cols rows : List String) (f : Font)
    (w h c r gap : Nat)
    (hsize : gi.one_image_size = (w, h)) (hgap : gi.gap = gap)
    (hw : 1 ≤ w) (hh : 1 ≤ h) (hc : 1 ≤ c) (hr : 1 ≤ r)
    (hW : gi.image.width = w * c + (c - 1) * gap)
    (hH : gi.image.height = h * r + (r - 1) * gap)
    (hcols : cols ≠ []) (hrows : rows ≠ []) :
    ∃ final, _create_grid_annots gi cols rows f = AnnotResult.done final ∧
      final.width = gi.image.width +
        ((⌊pyMax (rows.map f.getlength)⌋).toNat + 2 * (f.size / 2)) ∧
      final.height = gi.image.height + (f.size + 2 * (f.size / 2)) :=
  annot_canvas_dims gi cols rows f w h c r gap hsize hgap hw hh hc hr hW hH hcols hrows

/-- Counterexample to C5 as stated: with a font of size 4 whose row label
measures `3/2` wide, the actual `leftPadding` is `int(3/2) + 2*2 = 5`
(canvas width `6` on the 1×1 grid), while the claimed
`max textWidth + 2*margin` is `3/2 + 4 = 11/2`, so the claimed width
`1 + 11/2` is not the actual width `6`. -/
theorem C5_counterexample :
    AnnotResult.isDone (_create_grid_annots exGI [exStrA] [exStrA] exFont) = true ∧
    AnnotResult.widthD (_create_grid_annots exGI [exStrA] [exStrA] exFont) = 6 ∧
    ((exGI.image.width : ℚ) + claim_left_padding exFont [exStrA] ≠ (6 : ℚ)) := by
  obtain ⟨final, hdone, hwidth, hheight⟩ :=
    annot_canvas_dims exGI [exStrA] [exStrA] exFont 1 1 1 1 0
      rfl rfl (le_refl 1) (le_refl 1) (le_refl 1) (le_refl 1) rfl rfl
      (List.cons_ne_nil _ _) (List.cons_ne_nil _ _)
  have hfloor : ⌊pyMax ([exStrA].map exFont.getlength)⌋ = 1 := by
    have hpm : pyMax ([exStrA].map exFont.getlength) = 3 / 2 := by
      simp [pyMax, exFont]
    rw [hpm, Int.floor_eq_iff]
    norm_num
  refine ⟨?_, ?_, ?_⟩
  · rw [hdone]
    rfl
  · rw [hdone]
    show final.width = 6
    rw [hwidth, hfloor]
    rfl
  · norm_num [claim_left_padding, pyMax, annot_margin, exFont, exGI, exImage1, exStrA]

/-- Witness for C5 (amended) on the 1×1 grid. -/
theorem C5_annot_canvas_size_witness :
    ([exStrA] : List String) ≠ [] ∧
    (∃ final, _create_grid_annots exGI [exStrA] [exStrA] exFont = AnnotResult.done final ∧
      final.width = exGI.image.width +
        ((⌊pyMax ([exStrA].map exFont.getlength)⌋).toNat + 2 * (exFont.size / 2)) ∧
      final.height = exGI.image.height + (exFont.size + 2 * (exFont.size / 2))) :=
  ⟨List.cons_ne_nil _ _,
   C5_annot_canvas_size exGI [exStrA] [exStrA] exFont 1 1 1 1 0
     rfl rfl (le_refl 1) (le_refl 1) (le_refl 1) (le_refl 1) rfl rfl
     (List.cons_ne_nil _ _) (List.cons_ne_nil _ _)⟩

/-! ### C6 -/

/-- A pixel at or beyond the right/bottom edge of a drawn text's bounding
box is untouched by the draw (rasterizer ink stays inside the box). -/
theorem text_pixel_preserved (img : Image) (f : Font) (pos : ℚ × ℚ) (t : String)
    (hink : f.InkInBBox) (px py : Nat)
    (hout : pos.2 + (f.bbox t).2.2.2 ≤ (py : ℚ) ∨
      pos.1 + (f.bbox t).2.2.1 ≤ (px : ℚ)) :
    (ImageDraw.text img f pos t).pixel px py = img.pixel px py := by
  cases hr : f.render t pos px py with
  | none => simp [ImageDraw.text, hr]
  | some cc =>
    exfalso
    have h2 := hink t pos px py cc hr
    rcases hout with hB | hR
    · linarith [h2.2]
    · linarith [h2.1]

/-- Drawing a column label (band `(a, 0, b, tp)`, bbox bottoms bounded by
`tp`) leaves every pixel with `tp ≤ py` unchanged. -/
theorem draw_text_by_xy_col_pixel (f : Font) (texts : List String)
    (hink : f.InkInBBox) (tp : Nat)
    (hbb : ∀ t ∈ texts, (f.bbox t).2.2.2 ≤ (tp : ℚ))
    (a b i : Nat) (img : Image) (px py : Nat) (hpy : tp ≤ py) :
    ((_draw_text_by_xy f (fun im pos t => ImageDraw.text im f pos t)
      (a, 0, b, tp) i img texts).2).pixel px py = img.pixel px py := by
  unfold _draw_text_by_xy
  cases hti : texts[i]? with
  | none => simp [hti]
  | some t =>
    simp only [hti]
    unfold _draw_center_text
    apply text_pixel_preserved _ _ _ _ hink
    left
    have hb := hbb t (List.getElem?_mem hti)
    have hpy' : (tp : ℚ) ≤ (py : ℚ) := by exact_mod_cast hpy
    simp only
    push_cast
    linarith

/-- Drawing a row label (band `(0, a, lp, b)`, bbox rights bounded by
`lp`) leaves every pixel with `lp ≤ px` unchanged. -/
theorem draw_text_by_xy_row_pixel (f : Font) (texts : List String)
    (hink : f.InkInBBox) (lp : Nat)
    (hbb : ∀ t ∈ texts, (f.bbox t).2.2.1 ≤ (lp : ℚ))
    (a b i : Nat) (img : Image) (px py : Nat) (hpx : lp ≤ px) :
    ((_draw_text_by_xy f (fun im pos t => ImageDraw.text im f pos t)
      (0, a, lp, b) i img texts).2).pixel px py = img.pixel px py := by
  unfold _draw_text_by_xy
  cases hti : texts[i]? with
  | none => simp [hti]
  | some t =>
    simp only [hti]
    unfold _draw_center_text
    apply text_pixel_preserved _ _ _ _ hink
    right
    have hb := hbb t (List.getElem?_mem hti)
    have hpx' : (lp : ℚ) ≤ (px : ℚ) := by exact_mod_cast hpx
    simp only
    push_cast
    linarith

/-- C6: the compositor pastes the grid flush against the bottom-right
corner of the expanded canvas — at offset `(leftPadding, topPadding)` —
and (for a rasterizer that keeps its ink inside the reported bounding
boxes, with every column label's bbox fitting the top band and every row
label's bbox fitting the left band) the grid region of the final
annotated canvas is pixel-for-pixel the un-annotated grid. -/
theorem C6_grid_pasted_bottom_right (gi : _GridInfo) (cols rows : List String)
    (f : Font) (w h c r gap : Nat)
    (hsize : gi.one_image_size = (w, h)) (hgap : gi.gap = gap)
    (hw : 1 ≤ w) (hh : 1 ≤ h) (hc : 1 ≤ c) (hr : 1 ≤ r)
    (hW : gi.image.width = w * c + (c - 1) * gap)
    (hH : gi.image.height = h * r + (r - 1) * gap)
    (hcols : cols ≠ []) (hrows : rows ≠ [])
    (hink : f.InkInBBox)
    (hcb : ∀ t ∈ cols, (f.bbox t).2.2.2 ≤ (annot_top_padding f : ℚ))
    (hrb : ∀ t ∈ rows, (f.bbox t).2.2.1 ≤ (annot_left_padding f rows : ℚ)) :
    (_paste_image_to_lower_left_corner
        (Image.new (gi.image.width + annot_left_padding f rows)
          (gi.image.height + annot_top_padding f) whiteColor) gi.image =
      (Image.new (gi.image.width + annot_left_padding f rows)
        (gi.image.height + annot_top_padding f) whiteColor).paste gi.image
        (annot_left_padding f rows, annot_top_padding f)) ∧
    ∃ final, _create_grid_annots gi cols rows f = AnnotResult.done final ∧
      ∀ x y, x < gi.image.width → y < gi.image.height →
        final.pixel (annot_left_padding f rows + x) (annot_top_padding f + y) =
          gi.image.pixel x y := by
  have hstepc : 1 ≤ w + gap := by omega
  have hstepr : 1 ≤ h + gap := by omega
  have hpaste : _paste_image_to_lower_left_corner
      (Image.new (gi.image.width + annot_left_padding f rows)
        (gi.image.height + annot_top_padding f) whiteColor) gi.image =
      (Image.new (gi.image.width + annot_left_padding f rows)
        (gi.image.height + annot_top_padding f) whiteColor).paste gi.image
        (annot_left_padding f rows, annot_top_padding f) := by
    simp [_paste_image_to_lower_left_corner, Image.new, Nat.add_sub_cancel_left]
  refine ⟨hpaste, ?_⟩
  have hP0 : ∀ x y, x < gi.image.width → y < gi.image.height →
      (_paste_image_to_lower_left_corner
        (Image.new (gi.image.width + annot_left_padding f rows)
          (gi.image.height + annot_top_padding f) whiteColor) gi.image).pixel
        (annot_left_padding f rows + x) (annot_top_padding f + y) =
        gi.image.pixel x y := by
    intro x y hx hy
    rw [hpaste]
    rw [Image.paste_pixel_in _ _ _ _ _ _ (Nat.le_add_right _ _)
      (Nat.add_lt_add_left hx _) (Nat.le_add_right _ _) (Nat.add_lt_add_left hy _)]
    rw [Nat.add_sub_cancel_left, Nat.add_sub_cancel_left]
  obtain ⟨img3, hgo3, hd3⟩ := draw_col_go_inv f
    (fun im pos t => ImageDraw.text im f pos t) cols (w + gap) (annot_top_padding f)
    hstepc
    (fun img => ∀ x y, x < gi.image.width → y < gi.image.height →
      img.pixel (annot_left_padding f rows + x) (annot_top_padding f + y) =
        gi.image.pixel x y)
    (fun s i x0 x1 hs => by
      intro x y hx hy
      rw [draw_text_by_xy_col_pixel f cols hink (annot_top_padding f) hcb x0 x1 i s
        (annot_left_padding f rows + x) (annot_top_padding f + y) (Nat.le_add_right _ _)]
      exact hs x y hx hy)
    c (annot_left_padding f rows) (annot_left_padding f rows + w) 0 _
    (c * (w + gap)) (le_refl _) hP0
  obtain ⟨img4, hgo4, hd4⟩ := draw_row_go_inv f
    (fun im pos t => ImageDraw.text im f pos t) rows (h + gap) (annot_left_padding f rows)
    hstepr
    (fun img => ∀ x y, x < gi.image.width → y < gi.image.height →
      img.pixel (annot_left_padding f rows + x) (annot_top_padding f + y) =
        gi.image.pixel x y)
    (fun s i y0 y1 hs => by
      intro x y hx hy
      rw [draw_text_by_xy_row_pixel f rows hink (annot_left_padding f rows) hrb y0 y1 i s
        (annot_left_padding f rows + x) (annot_top_padding f + y) (Nat.le_add_right _ _)]
      exact hs x y hx hy)
    r (annot_top_padding f) (annot_top_padding f + h) 0 img3
    (r * (h + gap)) (le_refl _) hd3
  have hc3 : _draw_column_text f (fun im pos t => ImageDraw.text im f pos t) cols gi
      (annot_left_padding f rows) (annot_top_padding f)
      (_paste_image_to_lower_left_corner
        (Image.new (gi.image.width + annot_left_padding f rows)
          (gi.image.height + annot_top_padding f) whiteColor) gi.image) = some img3 := by
    rw [draw_column_text_eq_go f _ cols gi _ _ w c gap _ (by rw [hsize]) hgap hc hW]
    exact hgo3
  have hc4 : _draw_row_text f (fun im pos t => ImageDraw.text im f pos t) rows gi
      (annot_left_padding f rows) (annot_top_padding f) img3 = some img4 := by
    rw [draw_row_text_eq_go f _ rows gi _ _ h r gap _ (by rw [hsize]) hgap hr hH]
    exact hgo4
  refine ⟨img4, ?_, hd4⟩
  unfold _create_grid_annots
  rw [if_neg (by simp [hcols, hrows])]
  simp only [hc3, hc4]

/-- Witness for C6 on the 1×1 grid with the inkless example font. -/
theorem C6_grid_pasted_bottom_right_witness :
    (_paste_image_to_lower_left_corner
        (Image.new (exGI.image.width + annot_left_padding exFont [exStrA])
          (exGI.image.height + annot_top_padding exFont) whiteColor) exGI.image =
      (Image.new (exGI.image.width + annot_left_padding exFont [exStrA])
        (exGI.image.height + annot_top_padding exFont) whiteColor).paste exGI.image
        (annot_left_padding exFont [exStrA], annot_top_padding exFont)) ∧
    ∃ final, _create_grid_annots exGI [exStrA] [exStrA] exFont = AnnotResult.done final ∧
      ∀ x y, x < exGI.image.width → y < exGI.image.height →
        final.pixel (annot_left_padding exFont [exStrA] + x)
          (annot_top_padding exFont + y) = exGI.image.pixel x y :=
  C6_grid_pasted_bottom_right exGI [exStrA] [exStrA] exFont 1 1 1 1 0 rfl rfl
    (le_refl 1) (le_refl 1) (le_refl 1) (le_refl 1) rfl rfl
    (List.cons_ne_nil _ _) (List.cons_ne_nil _ _)
    (by intro s pos x y c hsome; simp [exFont] at hsome)
    (by
      intro t ht
      have hb : (exFont.bbox t).2.2.2 = 0 := rfl
      rw [hb]
      positivity)
    (by
      intro t ht
      have hb : (exFont.bbox t).2.2.1 = 0 := rfl
      rw [hb]
      positivity)
